import Mathlib

/-!
Verification of the Financial Health Manager CSV normalization and
aggregation engine (`fhm/core.py`) against its specification.

The Python source is shallowly embedded:

* amounts are modelled as exact rationals (`ℚ`); the decimal literals the
  parser accepts are exactly representable, and the spec demands exact,
  reproducible numeric results (the special float texts `nan`/`inf` and
  exponent forms accepted by Python's `float` are outside this model);
* Python strings are modelled as lists of characters (`Str`), so that
  every text operation is an executable structural recursion; `lower`
  and `strip` are modelled on their ASCII behavior, and removing every
  occurrence of a single character (`replace(c, "")`) is a filter;
* a CSV file is a list of lines (without trailing newline characters);
* Python dicts (`defaultdict`) are modelled as insertion-ordered
  association lists;
* `pandas.read_csv(..., skiprows=h, header=0, skip_blank_lines=True,
  on_bad_lines="skip", engine="python")` is modelled for unquoted CSV
  text: each line is split on commas, empty lines are dropped, lines with
  more fields than the header are skipped, lines with fewer fields are
  padded with missing values, and a missing/empty field stringifies to
  "nan" the way `str(float("nan"))` does in Python (pandas' numeric dtype
  inference only changes numeric spellings, which the amount parser
  absorbs, so cells are kept textual);
* Python `set` literals iterated by `for name in options` have no
  specified iteration order (string hashing is salted per process), so
  `_find_index` is stated over an arbitrary enumeration (a permutation)
  of the option set; the literal-order list is used as the canonical
  enumeration.
-/

namespace FHM

/-- Python strings, modelled as character lists so every operation of
the source is kernel-computable. -/
abbrev Str := List Char

/-- Python's `str.strip()` (ASCII whitespace). -/
def trimChars (cs : Str) : Str :=
  ((cs.dropWhile Char.isWhitespace).reverse.dropWhile Char.isWhitespace).reverse

/-- Python's `str.lower()` (ASCII range). -/
def lowerChars (cs : Str) : Str := cs.map Char.toLower

instance {ε α : Type} [DecidableEq ε] [DecidableEq α] :
    DecidableEq (Except ε α) := fun a b =>
  match a, b with
  | .error e, .error f =>
    if h : e = f then .isTrue (h ▸ rfl)
    else .isFalse (fun hc => h (by cases hc; rfl))
  | .ok x, .ok y =>
    if h : x = y then .isTrue (h ▸ rfl)
    else .isFalse (fun hc => h (by cases hc; rfl))
  | .error _, .ok _ => .isFalse (fun hc => Except.noConfusion hc)
  | .ok _, .error _ => .isFalse (fun hc => Except.noConfusion hc)

/-- Calendar date, as produced by `datetime.date`. -/
structure Date where
  year : Nat
  month : Nat
  day : Nat
deriving DecidableEq, Repr

/-- Single financial transaction (`fhm/models.py`). -/
structure Transaction where
  date : Date
  category : Str
  amount : ℚ
deriving DecidableEq, Repr

/-- Monthly income/expense accumulator (`{"income": 0.0, "expenses": 0.0}`). -/
structure Bucket where
  income : ℚ
  expenses : ℚ
deriving DecidableEq, Repr

/-- Aggregated financial results (`fhm/models.py`). -/
structure Summary where
  category_totals : List (Str × ℚ)
  savings_rate : List (Str × ℚ)
  overall_balance : ℚ
deriving DecidableEq, Repr

/-! ### Canonical field-name sets (`fhm/core.py` lines 29-47)

In the source these are Python `set` literals; the lists below record
them in literal order, which serves as the canonical enumeration. -/

def DATE_FIELDS : List Str :=
  ["date".data, "transaction date".data, "posting date".data,
   "settlement date".data, "run date".data]

def CATEGORY_FIELDS : List Str :=
  ["category".data, "description".data, "transaction type".data, "type".data,
   "details".data]

def AMOUNT_FIELDS : List Str := ["amount".data, "amount ($)".data]

def CREDIT_FIELDS : List Str := ["credit".data]

def DEBIT_FIELDS : List Str := ["debit".data]

/-- Normalization `c.strip().lower()` applied to a column name. -/
def normCol (s : Str) : Str := lowerChars (trimChars s)

/-! ### Date parsing (`_parse_date`, core.py lines 53-60)

`datetime.strptime` is modelled format by format: `%Y` matches exactly
four digits, `%m`/`%d` match one or two digits constrained to 1-12 and
1-31 respectively, `%y` matches exactly two digits with the standard
century rule (00-68 is 2000-2068, 69-99 is 1969-1999), the whole string
must be consumed, and the resulting triple must be a real calendar date
(`datetime` raises `ValueError` otherwise, which `_parse_date` treats as
a non-match and moves to the next format). -/

def digitsVal (cs : List Char) : Nat :=
  cs.foldl (fun acc c => 10 * acc + (c.toNat - 48)) 0

def allDigits (cs : List Char) : Bool := cs.all Char.isDigit

/-- Parse a field of `minLen` to `maxLen` digits whose value lies in
`[lo, hi]`; models one `strptime` directive. -/
def parseField (cs : Str) (minLen maxLen lo hi : Nat) : Option Nat :=
  if allDigits cs ∧ minLen ≤ cs.length ∧ cs.length ≤ maxLen ∧
      lo ≤ digitsVal cs ∧ digitsVal cs ≤ hi then
    some (digitsVal cs)
  else
    none

def isLeap (y : Nat) : Bool := y % 4 = 0 ∧ (y % 100 ≠ 0 ∨ y % 400 = 0)

def daysInMonth (y m : Nat) : Nat :=
  if m = 2 then (if isLeap y then 29 else 28)
  else if m = 4 ∨ m = 6 ∨ m = 9 ∨ m = 11 then 30
  else 31

def mkValidDate (y m d : Nat) : Option Date :=
  if 1 ≤ d ∧ d ≤ daysInMonth y m then some ⟨y, m, d⟩ else none

/-- Format `%Y-%m-%d`. -/
def parseISO (t : Str) : Option Date :=
  match t.splitOn '-' with
  | [ys, ms, ds] => do
    let y ← parseField ys 4 4 1 9999
    let m ← parseField ms 1 2 1 12
    let d ← parseField ds 1 2 1 31
    mkValidDate y m d
  | _ => none

/-- Format `%m/%d/%Y`. -/
def parseUS4 (t : Str) : Option Date :=
  match t.splitOn '/' with
  | [ms, ds, ys] => do
    let m ← parseField ms 1 2 1 12
    let d ← parseField ds 1 2 1 31
    let y ← parseField ys 4 4 1 9999
    mkValidDate y m d
  | _ => none

/-- Format `%m/%d/%y` with the century-inference rule. -/
def parseUS2 (t : Str) : Option Date :=
  match t.splitOn '/' with
  | [ms, ds, ys] => do
    let m ← parseField ms 1 2 1 12
    let d ← parseField ds 1 2 1 31
    let yy ← parseField ys 2 2 0 99
    mkValidDate (if yy ≤ 68 then 2000 + yy else 1900 + yy) m d
  | _ => none

/-- Embeds `_parse_date` (core.py lines 53-60): the three formats are
tried in priority order on the stripped text; `none` models the final
`ValueError`. -/
def _parse_date (text : Str) : Option Date :=
  let t := trimChars text
  (parseISO t).orElse (fun _ => (parseUS4 t).orElse (fun _ => parseUS2 t))

/-! ### Amount parsing (`_parse_amount`, core.py lines 63-70) -/

/-- Decimal forms accepted by Python `float(...)` restricted to finite
decimals: optional surrounding whitespace, optional sign, digits with at
most one decimal point and at least one digit. -/
def parseUnsignedDec (cs : List Char) : Option ℚ :=
  match cs.splitOn '.' with
  | [int] =>
    if int ≠ [] ∧ allDigits int then some (digitsVal int) else none
  | [int, frac] =>
    if (int ≠ [] ∨ frac ≠ []) ∧ allDigits int ∧ allDigits frac then
      some ((digitsVal int : ℚ) + (digitsVal frac : ℚ) / (10 : ℚ) ^ frac.length)
    else none
  | _ => none

def parseDec (s : Str) : Option ℚ :=
  match trimChars s with
  | '+' :: rest => parseUnsignedDec rest
  | '-' :: rest => (parseUnsignedDec rest).map Neg.neg
  | rest => parseUnsignedDec rest

/-- Python's `text.replace(c, "")` for a single character: every
occurrence is removed. -/
def removeChar (text : Str) (c : Char) : Str := text.filter (fun x => x ≠ c)

/-- The residual text `text.replace("$", "").replace(",", "").strip()`
of `_parse_amount`. -/
def cleanedAmount (text : Str) : Str :=
  trimChars (removeChar (removeChar text '$') ',')

/-- Embeds `_parse_amount` (core.py lines 63-70): drop `$` and `,`,
strip, empty means zero, parentheses negate, otherwise parse a signed
decimal; `none` models the `ValueError` that skips the enclosing row. -/
def _parse_amount (text : Str) : Option ℚ :=
  let cleaned := cleanedAmount text
  if cleaned = [] then some 0
  else if cleaned.head? = some '(' ∧ cleaned.getLast? = some ')' then
    (parseDec (cleaned.drop 1).dropLast).map Neg.neg
  else parseDec cleaned

/-! ### Header detection (`_find_header_line`, core.py lines 14-26) -/

def splitCols (line : Str) : List Str := line.splitOn ','

/-- True when a line qualifies as the header: at least three comma-split
columns, one of which normalizes to a canonical date-field name. -/
def isHeaderLine (line : Str) : Bool :=
  let columns := (splitCols line).map normCol
  ¬ columns.length < 3 ∧ columns.any (fun col => DATE_FIELDS.contains col)

/-- Embeds `_find_header_line` (core.py lines 14-26): index of the first
line with at least three comma-split columns containing a canonical
date-field name, `none` when no such line exists. (Membership in the
`DATE_FIELDS` set is order-insensitive, so the set model is exact here.) -/
def _find_header_line : List Str → Option Nat
  | [] => none
  | line :: rest =>
    if isHeaderLine line then some 0
    else (_find_header_line rest).map (· + 1)

/-- Embeds `_find_index` (core.py lines 73-82): index in `header` of the
first option that occurs among the normalized header names. `options`
is the enumeration order of the Python `set` argument, which the source
leaves unspecified; theorems below quantify over permutations where the
order matters. -/
def _find_index (header : List Str) (options : List Str) : Option Nat :=
  let normalized := header.map normCol
  match options with
  | [] => none
  | name :: rest =>
    if name ∈ normalized then some (normalized.indexOf name)
    else _find_index header rest

/-! ### The pandas layer (core.py lines 102-112)

`pd.read_csv(path, skiprows=header_line, header=0, skip_blank_lines=True,
on_bad_lines="skip", engine="python", index_col=False)` on unquoted CSV
text: the first kept line is the header; empty data lines are dropped;
data lines with more fields than the header are skipped (`on_bad_lines`);
shorter lines are padded with missing values; a missing or empty field
becomes `NaN`, which `str(...)` renders as "nan". -/

def pdCell (s : Str) : Str := if s = [] then "nan".data else s

/-- Data rows the pandas model hands to the row loop, as lists of cell
strings (after the `str(...)` conversion in the row loop). -/
def pdDataRows (headerLen : Nat) (lines : List Str) : List (List Str) :=
  lines.filterMap (fun line =>
    if line = [] then none
    else
      let fs := splitCols line
      if headerLen < fs.length then none
      else some ((fs ++ List.replicate (headerLen - fs.length) []).map pdCell))

/-! ### Row normalization (core.py lines 135-160) -/

/-- Column indexes resolved from the header (core.py lines 114-122). -/
structure ColIdx where
  dateIdx : Nat
  amountIdx : Option Nat
  creditIdx : Option Nat
  debitIdx : Option Nat
  categoryIdx : Option Nat
deriving DecidableEq, Repr

/-- Embeds `_parse_amount(str(row.iloc[i])) if i is not None else 0.0`
(core.py lines 141-150): a missing credit or debit column contributes
exactly 0. -/
def cellAmount (oi : Option Nat) (row : List Str) : Option ℚ :=
  match oi with
  | some i => (row.get? i).bind _parse_amount
  | none => some 0

/-- Embeds the amount resolution of the row loop (core.py lines
138-151): straight from the amount column when one was found, otherwise
credit − debit. -/
def rowAmount (idx : ColIdx) (row : List Str) : Option ℚ :=
  match idx.amountIdx with
  | some i => (row.get? i).bind _parse_amount
  | none => do
    let credit ← cellAmount idx.creditIdx row
    let debit ← cellAmount idx.debitIdx row
    pure (credit - debit)

/-- Embeds the body of the row loop (core.py lines 135-160): parse the
date cell, resolve the amount, look up the category or default it;
`none` models the caught `KeyError`/`ValueError`/`IndexError` that skips
the row. -/
def parseRow (idx : ColIdx) (row : List Str) : Option Transaction :=
  (row.get? idx.dateIdx).bind fun dcell =>
  (_parse_date dcell).bind fun txDate =>
  (rowAmount idx row).bind fun amount =>
  (match idx.categoryIdx with
   | some i => row.get? i
   | none => some "uncategorized".data).bind fun category =>
  some ⟨txDate, category, amount⟩

/-- Resolve all semantic columns from a header (core.py lines 114-122),
given an enumeration order for each field-name set. -/
def resolveCols (header : List Str)
    (dateOrd amountOrd creditOrd debitOrd categoryOrd : List Str) :
    Option ColIdx :=
  match _find_index header dateOrd with
  | none => none
  | some d =>
    some ⟨d, _find_index header amountOrd, _find_index header creditOrd,
      _find_index header debitOrd, _find_index header categoryOrd⟩

/-- Embeds `_parse_csv_file` (core.py lines 85-163) over the lines of one
file, with the canonical (literal-order) enumerations of the field-name
sets. `Except.error` models the fatal `ValueError` raised when no date
column is found. -/
def _parse_csv_file (lines : List Str) : Except String (List Transaction) :=
  match _find_header_line lines with
  | none => .error "Date column not found; please preprocess the file."
  | some h =>
    match lines.drop h with
    | [] => .error "Date column not found; please preprocess the file."
    | headerLine :: dataLines =>
      let header := splitCols headerLine
      match resolveCols header DATE_FIELDS AMOUNT_FIELDS CREDIT_FIELDS
          DEBIT_FIELDS CATEGORY_FIELDS with
      | none => .error "Date column not found; please preprocess the file."
      | some idx =>
        .ok ((pdDataRows header.length dataLines).filterMap (parseRow idx))

/-- Embeds `parse_csv` (core.py lines 166-179) applied to a list of
files (each file given by its lines): files are parsed sequentially, the
first fatal error propagates, per-file results are concatenated in
order. -/
def parse_csv : List (List Str) → Except String (List Transaction)
  | [] => .ok []
  | f :: fs =>
    match _parse_csv_file f with
    | .error e => .error e
    | .ok tx =>
      match parse_csv fs with
      | .error e => .error e
      | .ok rest => .ok (tx ++ rest)

/-- Embeds the `isinstance(paths, str)` branch of `parse_csv`: a single
path is wrapped into a singleton list. -/
def parse_csv_one (f : List Str) : Except String (List Transaction) :=
  parse_csv [f]

/-! ### Association-list model of Python dicts

Python's `defaultdict` keeps insertion order: an update of an existing
key accumulates in place, a new key is appended at the end. -/

/-- Lookup by key in an insertion-ordered association list. -/
def alookup [DecidableEq α] : List (α × β) → α → Option β
  | [], _ => none
  | (k0, v) :: rest, k => if k0 = k then some v else alookup rest k

/-- Embeds `d[k] += v` on a `defaultdict(float)`. -/
def updateAList [DecidableEq α] : List (α × ℚ) → α → ℚ → List (α × ℚ)
  | [], k, v => [(k, v)]
  | (k0, v0) :: rest, k, v =>
    if k0 = k then (k0, v0 + v) :: rest
    else (k0, v0) :: updateAList rest k v

/-- Embeds the branch on `tx.amount >= 0` in `summarize` (core.py lines
193-196): non-negative amounts accumulate into `income`, negative ones
contribute their magnitude to `expenses`. -/
def bucketStep (b : Bucket) (amt : ℚ) : Bucket :=
  if 0 ≤ amt then { b with income := b.income + amt }
  else { b with expenses := b.expenses + (-amt) }

/-- Embeds `by_month[key]` update on the `defaultdict` of buckets. -/
def updateMonth : List ((Nat × Nat) × Bucket) → (Nat × Nat) → ℚ →
    List ((Nat × Nat) × Bucket)
  | [], k, amt => [(k, bucketStep ⟨0, 0⟩ amt)]
  | (k0, b) :: rest, k, amt =>
    if k0 = k then (k0, bucketStep b amt) :: rest
    else (k0, b) :: updateMonth rest k amt

/-! ### Month-key formatting

`f"{year}-{month:02d}"`: the year in decimal, a dash, the month in
decimal zero-padded to two digits. -/

/-- Decimal digits of `n`, most significant first, with explicit fuel
(kept structural so concrete keys evaluate by `decide`). -/
def natReprCore : Nat → Nat → List Char
  | 0, _ => []
  | fuel + 1, n =>
    if n < 10 then [Nat.digitChar n]
    else natReprCore fuel (n / 10) ++ [Nat.digitChar (n % 10)]

/-- Decimal rendering of a natural number, as Python's `f"{n}"`. -/
def natRepr (n : Nat) : Str := natReprCore (n + 1) n

/-- Python's `f"{m:02d}"` for a natural number. -/
def pad2 (m : Nat) : Str := if m < 10 then '0' :: natRepr m else natRepr m

/-- The `f"{year}-{month:02d}"` key used by `savings_rate`. -/
def monthKey (y m : Nat) : Str := natRepr y ++ ['-'] ++ pad2 m

/-! ### Aggregation (`summarize` and `savings_rate`, core.py 182-218) -/

/-- Embeds `savings_rate` (core.py lines 206-218): one entry per month
bucket with strictly positive income, keyed `"YYYY-MM"`, valued
`(income − expenses) / income × 100`. -/
def savings_rate (month_data : List ((Nat × Nat) × Bucket)) : List (Str × ℚ) :=
  month_data.filterMap (fun e =>
    if 0 < e.2.income then
      some (monthKey e.1.1 e.1.2, (e.2.income - e.2.expenses) / e.2.income * 100)
    else none)

/-- Embeds `summarize` (core.py lines 182-203). -/
def summarize (transactions : List Transaction) : Summary :=
  let category_totals :=
    transactions.foldl (fun acc tx => updateAList acc tx.category tx.amount) []
  let by_month :=
    transactions.foldl
      (fun acc tx => updateMonth acc (tx.date.year, tx.date.month) tx.amount) []
  let overall := (category_totals.map Prod.snd).sum
  ⟨category_totals, savings_rate by_month, overall⟩

/-- The month buckets built by `summarize` (its `by_month` local). -/
def by_month (transactions : List Transaction) : List ((Nat × Nat) × Bucket) :=
  transactions.foldl
    (fun acc tx => updateMonth acc (tx.date.year, tx.date.month) tx.amount) []

/-! ### Year-over-year expense averages -/

/-- Record that calendar month `m` saw an expense in year `y` (the set of
expense-bearing `(year, month)` buckets, grouped by calendar month). -/
def addYear : List (Nat × List Nat) → Nat → Nat → List (Nat × List Nat)
  | [], m, y => [(m, [y])]
  | (m0, ys) :: rest, m, y =>
    if m0 = m then (m0, if y ∈ ys then ys else ys ++ [y]) :: rest
    else (m0, ys) :: addYear rest m y

/-- Modelled from the spec: `yoy_monthly_expenses` — its implementation
(`backend/fhm/core.py`) is not under `src/`; only its package
declaration (`backend/fhm/__init__.py`), its test
(`tests/test_analysis.py`) and its HTTP/CLI callers are. Per spec §4.6:
for each transaction with `amount < 0`, accumulate `|amount|` into a
per-calendar-month running sum and track the expense-bearing
`(year, month)` buckets; the final value per calendar month `"MM"` is
the sum divided by the number of such buckets, and months without
expense transactions get no entry. -/
def yoy_monthly_expenses (transactions : List Transaction) : List (Str × ℚ) :=
  let exp := transactions.filter (fun t => t.amount < 0)
  let sums :=
    exp.foldl (fun acc t => updateAList acc t.date.month (-t.amount))
      ([] : List (Nat × ℚ))
  let years :=
    exp.foldl (fun acc t => addYear acc t.date.month t.date.year)
      ([] : List (Nat × List Nat))
  sums.map (fun e => (pad2 e.1, e.2 / (((alookup years e.1).getD []).length : ℚ)))

/-! ### Derived notions used in theorem statements -/

/-- The bucket stored for key `k`, or the `defaultdict` default. -/
def bucketOf (l : List ((Nat × Nat) × Bucket)) (k : Nat × Nat) : Bucket :=
  (alookup l k).getD ⟨0, 0⟩

/-- Total income `summarize` should assign to month `k`: the sum of the
non-negative amounts of the transactions dated in `k`. -/
def monthIncome (txs : List Transaction) (k : Nat × Nat) : ℚ :=
  (txs.map (fun t =>
    if (t.date.year, t.date.month) = k ∧ 0 ≤ t.amount then t.amount else 0)).sum

/-- Total expenses `summarize` should assign to month `k`: the sum of
the magnitudes of the negative amounts of the transactions dated in
`k`. -/
def monthExpenses (txs : List Transaction) (k : Nat × Nat) : ℚ :=
  (txs.map (fun t =>
    if (t.date.year, t.date.month) = k ∧ t.amount < 0 then -t.amount else 0)).sum

/-- Value of a decimal digit character. -/
def charVal (c : Char) : Nat := c.toNat - 48

/-- Numeric value of a digit string, used to show the month keys are
collision-free. -/
def strVal (cs : List Char) : Nat := cs.foldl (fun acc c => 10 * acc + charVal c) 0

/-- The expense transactions of calendar month `m` (spec §4.6). -/
def expensesIn (txs : List Transaction) (m : Nat) : List Transaction :=
  txs.filter (fun t => decide (t.date.month = m) && decide (t.amount < 0))

/-! ### Concrete inputs from the spec's scenarios and the repository's
tests -/

/-- Scenario B of the spec: a headerless file. -/
def scenarioB : List Str :=
  ["2024-01-01,income,3000".data, "2024-01-02,rent,-1200".data]

/-- Scenario E of the spec (and `test_parse_csv_skips_bad_rows`): a
malformed row between two valid rows. -/
def scenarioE : List Str :=
  ["Date,Description,Amount".data, "2024-01-01,income,100".data,
   "bad,row".data, "2024-01-02,rent,-50".data]

/-- The two files of `test_parse_csv_with_header_and_multiple_files`. -/
def fileCard : List Str :=
  ["Date,Description,Amount".data, "01/05/2024,Coffee,-5".data]

def fileExtra : List Str :=
  ["Date,Category,Amount".data, "2024-01-06,income,100".data]

/-- A file whose category cell is empty on the data row. -/
def fileEmptyCategory : List Str :=
  ["Date,Category,Amount".data, "2024-01-01,,5".data]

/-- The transactions of `test_yoy_monthly_expenses`. -/
def yoyTestTxs : List Transaction :=
  [⟨⟨2024, 1, 1⟩, "income".data, 3000⟩, ⟨⟨2024, 1, 2⟩, "rent".data, -1000⟩,
   ⟨⟨2024, 2, 3⟩, "rent".data, -900⟩, ⟨⟨2025, 1, 1⟩, "income".data, 3500⟩,
   ⟨⟨2025, 1, 2⟩, "rent".data, -1100⟩]

/-! ## Theorems -/

theorem sum_snd_updateAList [DecidableEq α] (l : List (α × ℚ)) (k : α) (v : ℚ) :
    ((updateAList l k v).map Prod.snd).sum = (l.map Prod.snd).sum + v := by
  induction l with
  | nil => simp [updateAList]
  | cons hd tl ih =>
    obtain ⟨k0, v0⟩ := hd
    by_cases h : k0 = k
    · simp [updateAList, h]
      ring
    · simp [updateAList, h, ih]
      ring

theorem sum_snd_foldl_update (txs : List Transaction) (acc : List (Str × ℚ)) :
    ((txs.foldl (fun a tx => updateAList a tx.category tx.amount) acc).map
        Prod.snd).sum
      = (acc.map Prod.snd).sum + (txs.map Transaction.amount).sum := by
  induction txs generalizing acc with
  | nil => simp
  | cons t ts ih =>
    simp only [List.foldl_cons, ih, sum_snd_updateAList, List.map_cons,
      List.sum_cons]
    ring

/-- C2: for every transaction list, the `Summary` returned by `summarize`
has `overall_balance` exactly equal to the sum of `category_totals`'
values, and that value equals the grand sum of all transaction amounts:
partitioning the additions by category does not change the total. -/
theorem summarize_sum_invariant (txs : List Transaction) :
    (summarize txs).overall_balance
        = ((summarize txs).category_totals.map Prod.snd).sum
      ∧ (summarize txs).overall_balance = (txs.map Transaction.amount).sum := by
  refine ⟨rfl, ?_⟩
  show ((txs.foldl (fun a tx => updateAList a tx.category tx.amount) []).map
      Prod.snd).sum = _
  rw [sum_snd_foldl_update]
  simp

theorem bucketOf_updateMonth (l : List ((Nat × Nat) × Bucket)) (k j : Nat × Nat)
    (amt : ℚ) :
    alookup (updateMonth l k amt) j =
      if k = j then some (bucketStep (bucketOf l k) amt) else alookup l j := by
  induction l with
  | nil =>
    by_cases h : k = j <;> simp [updateMonth, alookup, bucketOf, h]
  | cons hd tl ih =>
    obtain ⟨k0, b⟩ := hd
    by_cases h0 : k0 = k
    · by_cases hj : k = j <;> simp [updateMonth, alookup, bucketOf, h0, hj]
    · by_cases hj : k0 = j
      · have hkj : k ≠ j := fun he => h0 (hj.trans he.symm)
        simp [updateMonth, alookup, bucketOf, h0, hj, hkj, Ne.symm hkj]
      · simp [updateMonth, alookup, bucketOf, h0, hj, ih]

theorem by_month_income_aux (txs : List Transaction)
    (acc : List ((Nat × Nat) × Bucket)) (k : Nat × Nat) :
    (bucketOf
        (txs.foldl
          (fun a tx => updateMonth a (tx.date.year, tx.date.month) tx.amount)
          acc) k).income
      = (bucketOf acc k).income + monthIncome txs k := by
  induction txs generalizing acc with
  | nil => simp [monthIncome]
  | cons t ts ih =>
    simp only [List.foldl_cons, ih]
    have hupd : bucketOf
        (updateMonth acc (t.date.year, t.date.month) t.amount) k =
        if (t.date.year, t.date.month) = k then
          bucketStep (bucketOf acc (t.date.year, t.date.month)) t.amount
        else bucketOf acc k := by
      simp only [bucketOf, bucketOf_updateMonth]
      by_cases h : ((t.date.year, t.date.month) : Nat × Nat) = k <;> simp [h]
    rw [hupd]
    by_cases hk : ((t.date.year, t.date.month) : Nat × Nat) = k
    · by_cases ha : (0 : ℚ) ≤ t.amount <;>
        simp [hk, ha, bucketStep, monthIncome, not_lt.mpr] <;> ring
    · simp [hk, monthIncome]

theorem by_month_expenses_aux (txs : List Transaction)
    (acc : List ((Nat × Nat) × Bucket)) (k : Nat × Nat) :
    (bucketOf
        (txs.foldl
          (fun a tx => updateMonth a (tx.date.year, tx.date.month) tx.amount)
          acc) k).expenses
      = (bucketOf acc k).expenses + monthExpenses txs k := by
  induction txs generalizing acc with
  | nil => simp [monthExpenses]
  | cons t ts ih =>
    simp only [List.foldl_cons, ih]
    have hupd : bucketOf
        (updateMonth acc (t.date.year, t.date.month) t.amount) k =
        if (t.date.year, t.date.month) = k then
          bucketStep (bucketOf acc (t.date.year, t.date.month)) t.amount
        else bucketOf acc k := by
      simp only [bucketOf, bucketOf_updateMonth]
      by_cases h : ((t.date.year, t.date.month) : Nat × Nat) = k <;> simp [h]
    rw [hupd]
    by_cases hk : ((t.date.year, t.date.month) : Nat × Nat) = k
    · by_cases ha : (0 : ℚ) ≤ t.amount
      · simp [hk, ha, bucketStep, monthExpenses, not_lt.mpr]
      · simp [hk, ha, bucketStep, monthExpenses, not_le.mp ha]
        ring
    · simp [hk, monthExpenses]

theorem by_month_none_aux (txs : List Transaction)
    (acc : List ((Nat × Nat) × Bucket)) (k : Nat × Nat) :
    alookup
        (txs.foldl
          (fun a tx => updateMonth a (tx.date.year, tx.date.month) tx.amount)
          acc) k = none
      ↔ alookup acc k = none ∧
        ∀ t ∈ txs, ((t.date.year, t.date.month) : Nat × Nat) ≠ k := by
  induction txs generalizing acc with
  | nil => simp
  | cons t ts ih =>
    simp only [List.foldl_cons, ih, List.mem_cons]
    rw [bucketOf_updateMonth]
    by_cases h : ((t.date.year, t.date.month) : Nat × Nat) = k
    · simp only [h, if_pos rfl]
      constructor
      · rintro ⟨hsome, -⟩
        exact absurd hsome (by simp)
      · rintro ⟨-, hall⟩
        exact absurd h (hall t (Or.inl rfl))
    · simp only [if_neg h]
      constructor
      · rintro ⟨hacc, hall⟩
        refine ⟨hacc, fun t' ht' => ?_⟩
        rcases ht' with he | hm
        · rw [he]
          exact h
        · exact hall t' hm
      · rintro ⟨hacc, hall⟩
        exact ⟨hacc, fun t' ht' => hall t' (Or.inr ht')⟩

/-- C6: `summarize` buckets each transaction by the `(year, month)` of
its date, adding the amount to that bucket's income when it is
non-negative and the magnitude to the bucket's expenses when it is
negative; an amount of exactly 0 goes through the income branch (so its
bucket exists), and income and expenses of every bucket are
non-negative. -/
theorem summarize_bucketing (txs : List Transaction) (k : Nat × Nat) :
    (alookup (by_month txs) k = none
        ↔ ∀ t ∈ txs, ((t.date.year, t.date.month) : Nat × Nat) ≠ k)
      ∧ (bucketOf (by_month txs) k).income = monthIncome txs k
      ∧ (bucketOf (by_month txs) k).expenses = monthExpenses txs k
      ∧ 0 ≤ (bucketOf (by_month txs) k).income
      ∧ 0 ≤ (bucketOf (by_month txs) k).expenses
      ∧ (∀ b : Bucket, bucketStep b 0 = ⟨b.income + 0, b.expenses⟩)
      ∧ (∀ t ∈ txs, t.amount = 0 →
          alookup (by_month txs) (t.date.year, t.date.month) ≠ none) := by
  have hinc : (bucketOf (by_month txs) k).income = monthIncome txs k := by
    have := by_month_income_aux txs [] k
    simpa [by_month, bucketOf, alookup] using this
  have hexp : (bucketOf (by_month txs) k).expenses = monthExpenses txs k := by
    have := by_month_expenses_aux txs [] k
    simpa [by_month, bucketOf, alookup] using this
  have hnone : alookup (by_month txs) k = none
      ↔ ∀ t ∈ txs, ((t.date.year, t.date.month) : Nat × Nat) ≠ k := by
    have := by_month_none_aux txs [] k
    simpa [by_month, alookup] using this
  refine ⟨hnone, hinc, hexp, ?_, ?_, ?_, ?_⟩
  · rw [hinc]
    apply List.sum_nonneg
    intro x hx
    simp only [List.mem_map] at hx
    obtain ⟨t, -, rfl⟩ := hx
    split
    · next hcond => exact hcond.2
    · exact le_refl 0
  · rw [hexp]
    apply List.sum_nonneg
    intro x hx
    simp only [List.mem_map] at hx
    obtain ⟨t, -, rfl⟩ := hx
    split
    · next hcond => linarith [hcond.2]
    · exact le_refl 0
  · intro b
    simp [bucketStep]
  · intro t ht _ hnone'
    have := (by_month_none_aux txs [] (t.date.year, t.date.month)).mp
      (by simpa [by_month] using hnone')
    exact this.2 t ht rfl

theorem strVal_foldl_aux (cs : List Char) (n : Nat) :
    cs.foldl (fun acc c => 10 * acc + charVal c) n
      = n * 10 ^ cs.length + strVal cs := by
  induction cs generalizing n with
  | nil => simp [strVal]
  | cons c cs ih =>
    have hc : strVal (c :: cs) = charVal c * 10 ^ cs.length + strVal cs := by
      unfold strVal
      rw [List.foldl_cons, ih (10 * 0 + charVal c), ih 0]
      ring
    simp only [List.foldl_cons, ih (10 * n + charVal c), hc, List.length_cons]
    ring

theorem strVal_append (a b : List Char) :
    strVal (a ++ b) = strVal a * 10 ^ b.length + strVal b := by
  simp only [strVal, List.foldl_append]
  exact strVal_foldl_aux b _

theorem charVal_digitChar (n : Nat) (h : n < 10) :
    charVal (Nat.digitChar n) = n := by
  have hfin : ∀ i : Fin 10, charVal (Nat.digitChar i.val) = i.val := by decide
  exact hfin ⟨n, h⟩

theorem isDigit_digitChar (n : Nat) (h : n < 10) :
    (Nat.digitChar n).isDigit = true := by
  have hfin : ∀ i : Fin 10, (Nat.digitChar i.val).isDigit = true := by decide
  exact hfin ⟨n, h⟩

theorem strVal_natReprCore (fuel : Nat) :
    ∀ n, n < 10 ^ fuel → strVal (natReprCore fuel n) = n := by
  induction fuel with
  | zero =>
    intro n h
    interval_cases n
    simp [natReprCore, strVal]
  | succ fuel ih =>
    intro n h
    by_cases h10 : n < 10
    · simp [natReprCore, h10, strVal, charVal_digitChar n h10]
    · have hdiv : n / 10 < 10 ^ fuel := by
        rw [Nat.div_lt_iff_lt_mul (by norm_num)]
        calc n < 10 ^ (fuel + 1) := h
          _ = 10 ^ fuel * 10 := by ring
      have hmod : n % 10 < 10 := Nat.mod_lt n (by norm_num)
      simp only [natReprCore, if_neg h10, strVal_append, ih _ hdiv,
        List.length_cons, List.length_nil]
      have hone : strVal [Nat.digitChar (n % 10)] = n % 10 := by
        simp [strVal, charVal_digitChar _ hmod]
      rw [hone]
      have := Nat.div_add_mod n 10
      norm_num
      omega

theorem strVal_natRepr (n : Nat) : strVal (natRepr n) = n := by
  have hlt : n < 10 ^ (n + 1) :=
    lt_of_lt_of_le (Nat.lt_pow_self (by norm_num) n)
      (Nat.pow_le_pow_right (by norm_num) (Nat.le_succ n))
  exact strVal_natReprCore (n + 1) n hlt

theorem strVal_pad2 (m : Nat) : strVal (pad2 m) = m := by
  by_cases h : m < 10
  · have : strVal ('0' :: natRepr m) = strVal (natRepr m) := by
      simp [strVal, List.foldl_cons, charVal]
    simpa [pad2, h, this] using strVal_natRepr m
  · simpa [pad2, h] using strVal_natRepr m

theorem natReprCore_mem_isDigit (fuel : Nat) :
    ∀ n c, c ∈ natReprCore fuel n → c.isDigit = true := by
  induction fuel with
  | zero => intro n c hc; simp [natReprCore] at hc
  | succ fuel ih =>
    intro n c hc
    by_cases h10 : n < 10
    · simp only [natReprCore, if_pos h10, List.mem_singleton] at hc
      exact hc ▸ isDigit_digitChar n h10
    · simp only [natReprCore, if_neg h10, List.mem_append,
        List.mem_singleton] at hc
      rcases hc with hc | hc
      · exact ih _ c hc
      · exact hc ▸ isDigit_digitChar _ (Nat.mod_lt n (by norm_num))

theorem no_dash_natRepr (n : Nat) : '-' ∉ natRepr n := by
  intro hmem
  have := natReprCore_mem_isDigit (n + 1) n '-' (by simpa [natRepr] using hmem)
  exact absurd this (by decide)

theorem append_dash_inj : ∀ (a a' b b' : List Char), '-' ∉ a → '-' ∉ a' →
    a ++ '-' :: b = a' ++ '-' :: b' → a = a' ∧ b = b' := by
  intro a
  induction a with
  | nil =>
    intro a' b b' _ ha' heq
    cases a' with
    | nil =>
      simp only [List.nil_append, List.cons.injEq] at heq
      exact ⟨rfl, heq.2⟩
    | cons y ys =>
      simp only [List.nil_append, List.cons_append, List.cons.injEq] at heq
      exact absurd (heq.1 ▸ List.mem_cons_self y ys) ha'
  | cons x xs ih =>
    intro a' b b' ha ha' heq
    cases a' with
    | nil =>
      simp only [List.cons_append, List.nil_append, List.cons.injEq] at heq
      exact absurd (heq.1 ▸ List.mem_cons_self x xs) ha
    | cons y ys =>
      simp only [List.cons_append, List.cons.injEq] at heq
      have hxs : '-' ∉ xs := fun hm => ha (List.mem_cons_of_mem x hm)
      have hys : '-' ∉ ys := fun hm => ha' (List.mem_cons_of_mem y hm)
      obtain ⟨h1, h2⟩ := ih ys b b' hxs hys heq.2
      exact ⟨by rw [heq.1, h1], h2⟩

theorem monthKey_inj (y m y' m' : Nat) (h : monthKey y m = monthKey y' m') :
    y = y' ∧ m = m' := by
  have hd : natRepr y ++ '-' :: pad2 m = natRepr y' ++ '-' :: pad2 m' := by
    simpa [monthKey, List.append_assoc, List.singleton_append] using h
  obtain ⟨h1, h2⟩ := append_dash_inj _ _ _ _ (no_dash_natRepr y)
    (no_dash_natRepr y') hd
  constructor
  · have := congrArg strVal h1
    simpa [strVal_natRepr] using this
  · have := congrArg strVal h2
    simpa [strVal_pad2] using this

theorem savings_rate_eq_filter (md : List ((Nat × Nat) × Bucket)) :
    savings_rate md
      = (md.filter (fun e => decide (0 < e.2.income))).map
          (fun e => (monthKey e.1.1 e.1.2,
            (e.2.income - e.2.expenses) / e.2.income * 100)) := by
  induction md with
  | nil => simp [savings_rate]
  | cons e md ih =>
    by_cases h : 0 < e.2.income <;>
      simp [savings_rate, List.filterMap_cons, List.filter_cons, h, ← ih]

theorem nodup_keys_eq {α β : Type} (l : List (α × β))
    (h : (l.map Prod.fst).Nodup) :
    ∀ e ∈ l, ∀ e' ∈ l, e.1 = e'.1 → e = e' := by
  induction l with
  | nil => intro e he; simp at he
  | cons hd tl ih =>
    simp only [List.map_cons, List.nodup_cons] at h
    intro e he e' he' hfst
    rcases List.mem_cons.mp he with rfl | hetl
    · rcases List.mem_cons.mp he' with rfl | hetl'
      · rfl
      · exact absurd (hfst ▸ List.mem_map_of_mem Prod.fst hetl') h.1
    · rcases List.mem_cons.mp he' with rfl | hetl'
      · exact absurd (hfst ▸ List.mem_map_of_mem Prod.fst hetl) h.1
      · exact ih h.2 e hetl e' hetl' hfst

/-- C3: `savings_rate` returns, for exactly those month buckets with
strictly positive income, an entry keyed `"YYYY-MM"` (zero-padded month)
with value `(income − expenses) / income × 100`; under the dict
assumption that bucket keys are distinct, a month with income equal to 0
never appears in the output, regardless of its expenses. -/
theorem savings_rate_spec (md : List ((Nat × Nat) × Bucket)) :
    savings_rate md
        = (md.filter (fun e => decide (0 < e.2.income))).map
            (fun e => (monthKey e.1.1 e.1.2,
              (e.2.income - e.2.expenses) / e.2.income * 100))
      ∧ ((md.map Prod.fst).Nodup → ∀ e ∈ md, e.2.income = 0 →
          monthKey e.1.1 e.1.2 ∉ (savings_rate md).map Prod.fst) := by
  refine ⟨savings_rate_eq_filter md, ?_⟩
  intro hnd e he h0 hmem
  rw [savings_rate_eq_filter] at hmem
  simp only [List.map_map, List.mem_map, List.mem_filter,
    Function.comp_apply, decide_eq_true_eq] at hmem
  obtain ⟨e', ⟨he', hpos⟩, hkey⟩ := hmem
  obtain ⟨hy, hm⟩ := monthKey_inj e'.1.1 e'.1.2 e.1.1 e.1.2 hkey
  have hee : e' = e := nodup_keys_eq md hnd e' he' e he (Prod.ext hy hm)
  rw [hee, h0] at hpos
  exact lt_irrefl 0 hpos

/-- C8: the amount parser removes `$` and `,` characters and surrounding
whitespace; an empty residual yields 0; a parenthesized residual yields
the negation of the enclosed numeric value, so `"(1,200.50)"` parses to
`-1200.50`; any other residual is parsed as a signed decimal, and the
parser fails (causing a row skip) exactly when the residual text is not
numeric. -/
theorem parse_amount_algorithm (text : Str) :
    (cleanedAmount text = [] → _parse_amount text = some 0)
    ∧ (cleanedAmount text ≠ [] →
        (cleanedAmount text).head? = some '(' →
        (cleanedAmount text).getLast? = some ')' →
          _parse_amount text
              = (parseDec ((cleanedAmount text).drop 1).dropLast).map Neg.neg
          ∧ (_parse_amount text = none
              ↔ parseDec ((cleanedAmount text).drop 1).dropLast = none))
    ∧ (cleanedAmount text ≠ [] →
        ¬((cleanedAmount text).head? = some '('
            ∧ (cleanedAmount text).getLast? = some ')') →
          _parse_amount text = parseDec (cleanedAmount text)
          ∧ (_parse_amount text = none ↔ parseDec (cleanedAmount text) = none))
    ∧ _parse_amount "(1,200.50)".data = some (-1200.50) := by
  refine ⟨?_, ?_, ?_, ?_⟩
  · intro h
    simp [_parse_amount, h]
  · intro h1 h2 h3
    have heq : _parse_amount text
        = (parseDec ((cleanedAmount text).drop 1).dropLast).map Neg.neg := by
      simp [_parse_amount, h1, h2, h3]
    refine ⟨heq, ?_⟩
    rw [heq]
    exact Option.map_eq_none'
  · intro h1 h2
    have heq : _parse_amount text = parseDec (cleanedAmount text) := by
      simp only [_parse_amount]
      rw [if_neg h1, if_neg h2]
    exact ⟨heq, by rw [heq]⟩
  · have h1 : _parse_amount "(1,200.50)".data
        = some (-(((1200 : ℕ) : ℚ) + ((50 : ℕ) : ℚ) / (10 : ℚ) ^ 2)) := rfl
    rw [h1]
    norm_num

/-- C9: parsing two files concatenates their transaction lists in file
order, and a single path behaves as the singleton list of that path. -/
theorem parse_csv_concat (a b : List Str) (ta tb : List Transaction)
    (ha : _parse_csv_file a = .ok ta) (hb : _parse_csv_file b = .ok tb) :
    parse_csv [a, b] = .ok (ta ++ tb) ∧ parse_csv_one a = parse_csv [a] := by
  constructor
  · simp [parse_csv, ha, hb]
  · rfl

theorem parse_csv_concat_witness :
    _parse_csv_file fileCard = .ok [⟨⟨2024, 1, 5⟩, "Coffee".data, -5⟩]
    ∧ _parse_csv_file fileExtra = .ok [⟨⟨2024, 1, 6⟩, "income".data, 100⟩]
    ∧ parse_csv [fileCard, fileExtra]
        = .ok [⟨⟨2024, 1, 5⟩, "Coffee".data, -5⟩,
               ⟨⟨2024, 1, 6⟩, "income".data, 100⟩]
    ∧ parse_csv_one fileCard = parse_csv [fileCard] := by
  refine ⟨by decide, by decide, ?_, ?_⟩
  · exact (parse_csv_concat fileCard fileExtra
      [⟨⟨2024, 1, 5⟩, "Coffee".data, -5⟩]
      [⟨⟨2024, 1, 6⟩, "income".data, 100⟩] (by decide) (by decide)).1
  · exact (parse_csv_concat fileCard fileExtra
      [⟨⟨2024, 1, 5⟩, "Coffee".data, -5⟩]
      [⟨⟨2024, 1, 6⟩, "income".data, 100⟩] (by decide) (by decide)).2

/-- C1 counterexample: Scenario B's headerless file has no line with a
date-field name, its first data cell parses as a date, yet
`_parse_csv_file` raises the fatal date-column error — parsing does not
succeed in any headerless positional mode. -/
theorem headerless_counterexample :
    _find_header_line scenarioB = none
    ∧ _parse_date "2024-01-01".data = some ⟨2024, 1, 1⟩
    ∧ _parse_csv_file scenarioB
        = .error "Date column not found; please preprocess the file." :=
  ⟨by decide, by decide, by decide⟩

/-- C1 amended: for every file in which no line has at least three
comma-split columns containing a canonical date-field name, parsing
fails with the fatal date-column error, even when the first data row's
first cell parses as a date; the code has no headerless mode. -/
theorem headerless_fatal (lines : List Str)
    (h : _find_header_line lines = none) :
    _parse_csv_file lines
      = .error "Date column not found; please preprocess the file." := by
  simp [_parse_csv_file, h]

theorem headerless_fatal_witness :
    _find_header_line scenarioB = none
    ∧ _parse_csv_file scenarioB
        = .error "Date column not found; please preprocess the file." :=
  ⟨by decide, headerless_fatal scenarioB (by decide)⟩

theorem find_index_none_iff (header : List Str) (opts : List Str) :
    _find_index header opts = none ↔ ∀ o ∈ opts, o ∉ header.map normCol := by
  induction opts with
  | nil => simp [_find_index]
  | cons name rest ih =>
    by_cases h : name ∈ header.map normCol
    · simp only [_find_index, if_pos h]
      constructor
      · intro hc
        simp at hc
      · intro hall
        exact absurd h (hall name (List.mem_cons_self name rest))
    · simp only [_find_index, if_neg h]
      rw [ih]
      constructor
      · intro hall o ho
        rcases List.mem_cons.mp ho with rfl | hor
        · exact h
        · exact hall o hor
      · intro hall o ho
        exact hall o (List.mem_cons_of_mem name ho)

theorem find_header_line_some (lines : List Str) (k : Nat)
    (h : _find_header_line lines = some k) :
    ∃ headerLine rest, lines.drop k = headerLine :: rest
      ∧ isHeaderLine headerLine = true := by
  induction lines generalizing k with
  | nil => simp [_find_header_line] at h
  | cons l ls ih =>
    by_cases hl : isHeaderLine l
    · simp only [_find_header_line, if_pos hl, Option.some.injEq] at h
      subst h
      exact ⟨l, ls, rfl, hl⟩
    · simp only [_find_header_line, if_neg hl] at h
      obtain ⟨k', hk', rfl⟩ := Option.map_eq_some'.mp h
      exact ih k' hk'

theorem isHeaderLine_date_found (line : Str) (h : isHeaderLine line = true) :
    _find_index (splitCols line) DATE_FIELDS ≠ none := by
  intro hnone
  rw [find_index_none_iff] at hnone
  simp only [isHeaderLine, Bool.and_eq_true, List.any_eq_true,
    decide_eq_true_eq] at h
  obtain ⟨-, col, hcolmem, hcoldate⟩ := h
  exact hnone col (by simpa using hcoldate) hcolmem

theorem parse_file_ok_shape (lines : List Str) (k : Nat) (headerLine : Str)
    (dataLines : List Str) (idx : ColIdx)
    (hk : _find_header_line lines = some k)
    (hdrop : lines.drop k = headerLine :: dataLines)
    (hres : resolveCols (splitCols headerLine) DATE_FIELDS AMOUNT_FIELDS
      CREDIT_FIELDS DEBIT_FIELDS CATEGORY_FIELDS = some idx) :
    _parse_csv_file lines
      = .ok ((pdDataRows (splitCols headerLine).length dataLines).filterMap
          (parseRow idx)) := by
  simp [_parse_csv_file, hk, hdrop, hres]

theorem parse_file_error_iff (lines : List Str) :
    (∃ e, _parse_csv_file lines = .error e)
      ↔ _find_header_line lines = none := by
  constructor
  · rintro ⟨e, he⟩
    by_contra hne
    obtain ⟨k, hk⟩ := Option.ne_none_iff_exists'.mp hne
    obtain ⟨headerLine, rest, hdrop, hhdr⟩ := find_header_line_some lines k hk
    have hidx := isHeaderLine_date_found headerLine hhdr
    obtain ⟨d, hd⟩ := Option.ne_none_iff_exists'.mp hidx
    have hres : resolveCols (splitCols headerLine) DATE_FIELDS AMOUNT_FIELDS
        CREDIT_FIELDS DEBIT_FIELDS CATEGORY_FIELDS
        = some ⟨d, _find_index (splitCols headerLine) AMOUNT_FIELDS,
            _find_index (splitCols headerLine) CREDIT_FIELDS,
            _find_index (splitCols headerLine) DEBIT_FIELDS,
            _find_index (splitCols headerLine) CATEGORY_FIELDS⟩ := by
      simp [resolveCols, hd]
    rw [parse_file_ok_shape lines k headerLine rest _ hk hdrop hres] at he
    exact Except.noConfusion he
  · intro h
    exact ⟨"Date column not found; please preprocess the file.",
      by simp [_parse_csv_file, h]⟩

theorem parse_csv_error_iff (files : List (List Str)) :
    (∃ e, parse_csv files = .error e)
      ↔ ∃ f ∈ files, _find_header_line f = none := by
  induction files with
  | nil => simp [parse_csv]
  | cons f fs ih =>
    constructor
    · rintro ⟨e, he⟩
      simp only [parse_csv] at he
      cases hf : _parse_csv_file f with
      | error e2 =>
        exact ⟨f, List.mem_cons_self f fs, (parse_file_error_iff f).mp ⟨e2, hf⟩⟩
      | ok tx =>
        rw [hf] at he
        cases hfs : parse_csv fs with
        | error e2 =>
          obtain ⟨g, hg, hgnone⟩ := ih.mp ⟨e2, hfs⟩
          exact ⟨g, List.mem_cons_of_mem f hg, hgnone⟩
        | ok rest =>
          rw [hfs] at he
          exact Except.noConfusion he
    · rintro ⟨g, hg, hgnone⟩
      rcases List.mem_cons.mp hg with rfl | hgfs
      · obtain ⟨e, he⟩ := (parse_file_error_iff g).mpr hgnone
        exact ⟨e, by simp [parse_csv, he]⟩
      · obtain ⟨e, he⟩ := ih.mpr ⟨g, hgfs, hgnone⟩
        cases hf : _parse_csv_file f with
        | error e2 => exact ⟨e2, by simp [parse_csv, hf]⟩
        | ok tx => exact ⟨e, by simp [parse_csv, hf, he]⟩

/-- C5: `parse_csv` raises a fatal error exactly when some input file
has no detectable date column; a row on which parsing fails is dropped
alone, with the valid rows before and after it retained in order, and a
row with more fields than the header is likewise dropped alone by the
reader. -/
theorem parse_csv_error_handling :
    (∀ files : List (List Str),
      (∃ e, parse_csv files = .error e)
        ↔ ∃ f ∈ files, _find_header_line f = none)
    ∧ (∀ (lines : List Str) (k : Nat) (headerLine : Str)
        (dataLines : List Str) (idx : ColIdx) (d1 : List (List Str))
        (bad : List Str) (d2 : List (List Str)),
        _find_header_line lines = some k →
        lines.drop k = headerLine :: dataLines →
        resolveCols (splitCols headerLine) DATE_FIELDS AMOUNT_FIELDS
          CREDIT_FIELDS DEBIT_FIELDS CATEGORY_FIELDS = some idx →
        pdDataRows (splitCols headerLine).length dataLines
          = d1 ++ bad :: d2 →
        parseRow idx bad = none →
        _parse_csv_file lines
          = .ok (d1.filterMap (parseRow idx) ++ d2.filterMap (parseRow idx)))
    ∧ (∀ (headerLen : Nat) (lines l1 : List Str) (badLine : Str)
        (l2 : List Str),
        lines = l1 ++ badLine :: l2 → badLine ≠ [] →
        headerLen < (splitCols badLine).length →
        pdDataRows headerLen lines
          = pdDataRows headerLen l1 ++ pdDataRows headerLen l2) := by
  refine ⟨parse_csv_error_iff, ?_, ?_⟩
  · intro lines k headerLine dataLines idx d1 bad d2 hk hdrop hres hrows hbad
    rw [parse_file_ok_shape lines k headerLine dataLines idx hk hdrop hres,
      hrows, List.filterMap_append, List.filterMap_cons, hbad]
  · intro headerLen lines l1 badLine l2 hsplit hne hlen
    subst hsplit
    simp only [pdDataRows, List.filterMap_append, List.filterMap_cons]
    rw [if_neg hne, if_pos hlen]

theorem parse_csv_error_handling_witness :
    _find_header_line scenarioE = some 0
    ∧ scenarioE.drop 0 = "Date,Description,Amount".data ::
        ["2024-01-01,income,100".data, "bad,row".data, "2024-01-02,rent,-50".data]
    ∧ resolveCols (splitCols "Date,Description,Amount".data) DATE_FIELDS
        AMOUNT_FIELDS CREDIT_FIELDS DEBIT_FIELDS CATEGORY_FIELDS
        = some ⟨0, some 2, none, none, some 1⟩
    ∧ pdDataRows (splitCols "Date,Description,Amount".data).length
        ["2024-01-01,income,100".data, "bad,row".data,
         "2024-01-02,rent,-50".data]
        = [["2024-01-01".data, "income".data, "100".data]]
          ++ ["bad".data, "row".data, "nan".data]
            :: [["2024-01-02".data, "rent".data, "-50".data]]
    ∧ parseRow ⟨0, some 2, none, none, some 1⟩
        ["bad".data, "row".data, "nan".data] = none
    ∧ _parse_csv_file scenarioE
        = .ok ([["2024-01-01".data, "income".data, "100".data]].filterMap
              (parseRow ⟨0, some 2, none, none, some 1⟩)
            ++ [["2024-01-02".data, "rent".data, "-50".data]].filterMap
              (parseRow ⟨0, some 2, none, none, some 1⟩)) :=
  ⟨by decide, by decide, by decide, by decide, by decide,
    parse_csv_error_handling.2.1 scenarioE 0 "Date,Description,Amount".data
      ["2024-01-01,income,100".data, "bad,row".data, "2024-01-02,rent,-50".data]
      ⟨0, some 2, none, none, some 1⟩
      [["2024-01-01".data, "income".data, "100".data]]
      ["bad".data, "row".data, "nan".data]
      [["2024-01-02".data, "rent".data, "-50".data]]
      (by decide) (by decide) (by decide) (by decide) (by decide)⟩

theorem parseRow_fields (idx : ColIdx) (row : List Str) (t : Transaction)
    (h : parseRow idx row = some t) :
    rowAmount idx row = some t.amount
    ∧ (match idx.categoryIdx with
        | some i => row.get? i
        | none => some "uncategorized".data) = some t.category := by
  simp only [parseRow, Option.bind_eq_some, Option.some.injEq] at h
  obtain ⟨dcell, hdc, txDate, hpd, amount, hra, category, hcat, rfl⟩ := h
  exact ⟨hra, hcat⟩

theorem find_index_unique_match (header : List Str) (opts enum : List Str)
    (o : Str) (hsub : enum ⊆ opts) (ho : o ∈ enum)
    (hmem : o ∈ header.map normCol)
    (huniq : ∀ x ∈ opts, x ∈ header.map normCol → x = o) :
    _find_index header enum = some ((header.map normCol).indexOf o) := by
  induction enum with
  | nil => simp at ho
  | cons name rest ih =>
    by_cases h : name ∈ header.map normCol
    · have hno : name = o := huniq name (hsub (List.mem_cons_self name rest)) h
      simp only [_find_index, hno]
      rw [if_pos hmem]
    · simp only [_find_index, if_neg h]
      have hor : o ∈ rest := by
        rcases List.mem_cons.mp ho with rfl | hr
        · exact absurd hmem h
        · exact hr
      exact ih (fun x hx => hsub (List.mem_cons_of_mem name hx)) hor

/-- C4 counterexample: `_find_index` iterates a Python `set`, whose
enumeration order is unspecified, so on a header containing both a
"Description" and a "Category" column a legal enumeration of
`CATEGORY_FIELDS` resolves the category field to the "Description"
column (index 1) while another resolves it to the "Category" column
(index 2): the spec's fixed priority list is not guaranteed by the
code. -/
theorem find_index_order_counterexample :
    (["description".data, "category".data, "transaction type".data,
      "type".data, "details".data] : List Str).Perm CATEGORY_FIELDS
    ∧ _find_index
        ["Date".data, "Description".data, "Category".data, "Amount".data]
        ["description".data, "category".data, "transaction type".data,
         "type".data, "details".data] = some 1
    ∧ _find_index
        ["Date".data, "Description".data, "Category".data, "Amount".data]
        CATEGORY_FIELDS = some 2 :=
  ⟨List.Perm.swap "category".data "description".data
      ["transaction type".data, "type".data, "details".data],
    by decide, by decide⟩

/-- C4 amended: each semantic field resolves to the first accepted name
under some unspecified enumeration of the accepted-name set (Python set
iteration order), so the resolved column is determined only when the
header matches at most one accepted name of the field — whether a match
exists at all is enumeration-independent; the row's amount comes from
the amount column when one was found and otherwise equals
credit − debit with a missing credit or debit column contributing
exactly 0; and a parsed row's category is the literal string
"uncategorized" when no category-like column exists, and the category
cell's content when one does. -/
theorem field_resolution_amended :
    (∀ (header e1 e2 : List Str), e1.Perm e2 →
      (_find_index header e1 = none ↔ _find_index header e2 = none))
    ∧ (∀ (header opts enum : List Str) (o : Str), enum ⊆ opts → o ∈ enum →
        o ∈ header.map normCol →
        (∀ x ∈ opts, x ∈ header.map normCol → x = o) →
        _find_index header enum = some ((header.map normCol).indexOf o))
    ∧ (∀ (idx : ColIdx) (row : List Str) (i : Nat), idx.amountIdx = some i →
        rowAmount idx row = (row.get? i).bind _parse_amount)
    ∧ (∀ (idx : ColIdx) (row : List Str), idx.amountIdx = none →
        rowAmount idx row = do
          let credit ← cellAmount idx.creditIdx row
          let debit ← cellAmount idx.debitIdx row
          pure (credit - debit))
    ∧ (∀ row : List Str, cellAmount none row = some 0)
    ∧ (∀ (idx : ColIdx) (row : List Str) (t : Transaction),
        parseRow idx row = some t →
          (idx.categoryIdx = none → t.category = "uncategorized".data)
          ∧ ∀ i, idx.categoryIdx = some i → row.get? i = some t.category)
    ∧ (∀ header : List Str, _find_index header CATEGORY_FIELDS = none
        ↔ ∀ o ∈ CATEGORY_FIELDS, o ∉ header.map normCol) := by
  refine ⟨?_, ?_, ?_, ?_, ?_, ?_, ?_⟩
  · intro header e1 e2 hperm
    rw [find_index_none_iff, find_index_none_iff]
    constructor
    · intro hall o ho
      exact hall o (hperm.mem_iff.mpr ho)
    · intro hall o ho
      exact hall o (hperm.mem_iff.mp ho)
  · exact fun header opts enum o => find_index_unique_match header opts enum o
  · intro idx row i h
    simp [rowAmount, h]
  · intro idx row h
    simp [rowAmount, h]
  · intro row
    rfl
  · intro idx row t h
    have hcat := (parseRow_fields idx row t h).2
    constructor
    · intro hnone
      rw [hnone] at hcat
      simpa using hcat.symm
    · intro i hi
      rw [hi] at hcat
      exact hcat
  · intro header
    exact find_index_none_iff header CATEGORY_FIELDS

theorem field_resolution_amended_witness :
    _find_index ["Date".data, "Category".data, "Amount".data] CATEGORY_FIELDS
        = some 1
    ∧ cellAmount none ["2024-01-01".data, "x".data] = some 0
    ∧ rowAmount ⟨0, none, some 2, some 3, some 1⟩
        ["2024-01-01".data, "fee".data, "10".data, "30".data]
        = (do
            let credit ← cellAmount (some 2)
              ["2024-01-01".data, "fee".data, "10".data, "30".data]
            let debit ← cellAmount (some 3)
              ["2024-01-01".data, "fee".data, "10".data, "30".data]
            pure (credit - debit)) := by
  refine ⟨?_, ?_, ?_⟩
  · have h := field_resolution_amended.2.1
      ["Date".data, "Category".data, "Amount".data] CATEGORY_FIELDS
      CATEGORY_FIELDS "category".data (fun x hx => hx) (by decide) (by decide)
      (by decide)
    exact h
  · exact field_resolution_amended.2.2.2.2.1
      ["2024-01-01".data, "x".data]
  · exact field_resolution_amended.2.2.2.1
      ⟨0, none, some 2, some 3, some 1⟩
      ["2024-01-01".data, "fee".data, "10".data, "30".data] rfl

/-- C10: when the parsed file has a category-like column, a data row
whose category cell is empty produces a Transaction whose category is
the literal string "nan" (the string form of the pandas missing value),
never "uncategorized": the "uncategorized" default depends only on the
header, not on the row. -/
theorem empty_category_cell_nan :
    pdCell [] = "nan".data
    ∧ (∀ (idx : ColIdx) (row : List Str) (t : Transaction) (i : Nat) (c : Str),
        parseRow idx row = some t → idx.categoryIdx = some i →
        row.get? i = some c → t.category = c)
    ∧ (∀ (idx : ColIdx) (row : List Str) (t : Transaction),
        parseRow idx row = some t → idx.categoryIdx = none →
        t.category = "uncategorized".data)
    ∧ _parse_csv_file fileEmptyCategory
        = .ok [⟨⟨2024, 1, 1⟩, "nan".data, 5⟩] := by
  refine ⟨rfl, ?_, ?_, by decide⟩
  · intro idx row t i c h hi hc
    have hcat := (parseRow_fields idx row t h).2
    simp only [hi] at hcat
    rw [hc] at hcat
    exact (Option.some.inj hcat).symm
  · intro idx row t h hn
    have hcat := (parseRow_fields idx row t h).2
    simp only [hn] at hcat
    exact (Option.some.inj hcat).symm

theorem empty_category_cell_nan_witness :
    parseRow ⟨0, some 2, none, none, some 1⟩
        ["2024-01-01".data, "nan".data, "5".data]
        = some ⟨⟨2024, 1, 1⟩, "nan".data, 5⟩
    ∧ (⟨⟨2024, 1, 1⟩, "nan".data, 5⟩ : Transaction).category = "nan".data :=
  ⟨by decide,
    empty_category_cell_nan.2.1 ⟨0, some 2, none, none, some 1⟩
      ["2024-01-01".data, "nan".data, "5".data]
      ⟨⟨2024, 1, 1⟩, "nan".data, 5⟩ 1 "nan".data (by decide) rfl (by decide)⟩

theorem alookup_updateAList {α : Type} [DecidableEq α] (l : List (α × ℚ))
    (k j : α) (v : ℚ) :
    alookup (updateAList l k v) j
      = if k = j then some ((alookup l k).getD 0 + v) else alookup l j := by
  induction l with
  | nil => by_cases h : k = j <;> simp [updateAList, alookup, h]
  | cons hd tl ih =>
    obtain ⟨k0, v0⟩ := hd
    by_cases h0 : k0 = k
    · by_cases hj : k = j <;> simp [updateAList, alookup, h0, hj]
    · by_cases hj : k0 = j
      · have hkj : k ≠ j := fun he => h0 (hj.trans he.symm)
        simp [updateAList, alookup, h0, hj, hkj, Ne.symm hkj]
      · simp [updateAList, alookup, h0, hj, ih]

theorem sums_getD_foldl (ts : List Transaction) (acc : List (Nat × ℚ))
    (m : Nat) :
    (alookup (ts.foldl (fun a t => updateAList a t.date.month (-t.amount)) acc)
        m).getD 0
      = (alookup acc m).getD 0
        + ((ts.filter (fun t => decide (t.date.month = m))).map
            (fun t => -t.amount)).sum := by
  induction ts generalizing acc with
  | nil => simp
  | cons t ts ih =>
    simp only [List.foldl_cons, ih, List.filter_cons]
    rw [alookup_updateAList]
    by_cases h : t.date.month = m
    · rw [if_pos h]
      simp [h]
      ring
    · rw [if_neg h]
      simp [h]

theorem sums_none_foldl (ts : List Transaction) (acc : List (Nat × ℚ))
    (m : Nat) :
    alookup (ts.foldl (fun a t => updateAList a t.date.month (-t.amount)) acc)
        m = none
      ↔ alookup acc m = none ∧ ∀ t ∈ ts, t.date.month ≠ m := by
  induction ts generalizing acc with
  | nil => simp
  | cons t ts ih =>
    simp only [List.foldl_cons, ih, List.mem_cons]
    rw [alookup_updateAList]
    by_cases h : t.date.month = m
    · simp only [h, if_pos rfl]
      constructor
      · rintro ⟨hsome, -⟩
        exact absurd hsome (by simp)
      · rintro ⟨-, hall⟩
        exact absurd h (hall t (Or.inl rfl))
    · simp only [if_neg h]
      constructor
      · rintro ⟨hacc, hall⟩
        refine ⟨hacc, fun t' ht' => ?_⟩
        rcases ht' with he | hm
        · rw [he]
          exact h
        · exact hall t' hm
      · rintro ⟨hacc, hall⟩
        exact ⟨hacc, fun t' ht' => hall t' (Or.inr ht')⟩

theorem alookup_addYear (l : List (Nat × List Nat)) (m j y : Nat) :
    alookup (addYear l m y) j =
      if m = j then
        some (if y ∈ (alookup l m).getD [] then (alookup l m).getD []
          else (alookup l m).getD [] ++ [y])
      else alookup l j := by
  induction l with
  | nil => by_cases h : m = j <;> simp [addYear, alookup, h]
  | cons hd tl ih =>
    obtain ⟨k0, ys⟩ := hd
    by_cases h0 : k0 = m
    · by_cases hj : m = j <;> simp [addYear, alookup, h0, hj]
    · by_cases hj : k0 = j
      · have hkj : m ≠ j := fun he => h0 (hj.trans he.symm)
        simp [addYear, alookup, h0, hj, hkj, Ne.symm hkj]
      · simp [addYear, alookup, h0, hj, ih]

theorem years_mem_foldl (ts : List Transaction) (acc : List (Nat × List Nat))
    (m y0 : Nat) :
    (y0 ∈ (alookup
        (ts.foldl (fun a t => addYear a t.date.month t.date.year) acc)
        m).getD []
      ↔ y0 ∈ (alookup acc m).getD []
        ∨ ∃ t ∈ ts, t.date.month = m ∧ t.date.year = y0) := by
  induction ts generalizing acc with
  | nil => simp
  | cons t ts ih =>
    simp only [List.foldl_cons, ih, List.mem_cons]
    rw [alookup_addYear]
    by_cases h : t.date.month = m
    · rw [if_pos h]
      simp only [Option.getD_some]
      have hA : y0 ∈ (if t.date.year ∈ (alookup acc m).getD []
            then (alookup acc m).getD []
            else (alookup acc m).getD [] ++ [t.date.year])
          ↔ y0 ∈ (alookup acc m).getD [] ∨ y0 = t.date.year := by
        by_cases hy : t.date.year ∈ (alookup acc m).getD []
        · simp only [if_pos hy]
          constructor
          · exact Or.inl
          · rintro (h1 | rfl)
            · exact h1
            · exact hy
        · simp [if_neg hy, List.mem_append]
      rw [h, hA]
      constructor
      · rintro ((h1 | h1) | ⟨t', ht', hm', hy'⟩)
        · exact Or.inl h1
        · exact Or.inr ⟨t, Or.inl rfl, h, h1.symm⟩
        · exact Or.inr ⟨t', Or.inr ht', hm', hy'⟩
      · rintro (h1 | ⟨t', ht', hm', hy'⟩)
        · exact Or.inl (Or.inl h1)
        · rcases ht' with rfl | htt
          · exact Or.inl (Or.inr hy'.symm)
          · exact Or.inr ⟨t', htt, hm', hy'⟩
    · rw [if_neg h]
      constructor
      · rintro (h1 | ⟨t', ht', hm', hy'⟩)
        · exact Or.inl h1
        · exact Or.inr ⟨t', Or.inr ht', hm', hy'⟩
      · rintro (h1 | ⟨t', ht', hm', hy'⟩)
        · exact Or.inl h1
        · rcases ht' with rfl | htt
          · exact absurd hm' h
          · exact Or.inr ⟨t', htt, hm', hy'⟩

theorem pad2_inj (m m' : Nat) (h : pad2 m = pad2 m') : m = m' := by
  have := congrArg strVal h
  simpa [strVal_pad2] using this

theorem years_nodup_foldl (ts : List Transaction)
    (acc : List (Nat × List Nat)) (m : Nat)
    (hacc : ((alookup acc m).getD []).Nodup) :
    ((alookup (ts.foldl (fun a t => addYear a t.date.month t.date.year) acc)
        m).getD []).Nodup := by
  induction ts generalizing acc with
  | nil => exact hacc
  | cons t ts ih =>
    simp only [List.foldl_cons]
    apply ih
    rw [alookup_addYear]
    by_cases h : t.date.month = m
    · rw [if_pos h, h]
      simp only [Option.getD_some]
      by_cases hy : t.date.year ∈ (alookup acc m).getD []
      · rw [if_pos hy]
        exact hacc
      · rw [if_neg hy]
        rw [List.nodup_append]
        refine ⟨hacc, List.nodup_singleton _, ?_⟩
        intro a ha hb
        rw [List.mem_singleton] at hb
        exact hy (hb ▸ ha)
    · rw [if_neg h]
      exact hacc

theorem alookup_map_pad2 (l : List (Nat × ℚ)) (f : Nat → ℚ → ℚ) (m : Nat) :
    alookup (l.map (fun e => (pad2 e.1, f e.1 e.2))) (pad2 m)
      = (alookup l m).map (fun v => f m v) := by
  induction l with
  | nil => simp [alookup]
  | cons e l ih =>
    obtain ⟨k, v⟩ := e
    by_cases h : k = m
    · subst h
      simp [alookup]
    · have hk : pad2 k ≠ pad2 m := fun he => h (pad2_inj k m he)
      simp [alookup, h, hk, ih]

/-- C7 (spec-modelled): `yoy_monthly_expenses` maps each zero-padded
calendar month with at least one expense transaction to the sum of the
expense magnitudes of that calendar month across all years, divided by
the number of expense-bearing `(year, month)` buckets of that calendar
month; months without expense transactions get no entry. The concrete
conjuncts replay `test_yoy_monthly_expenses`. -/
theorem yoy_monthly_expenses_spec :
    (∀ (txs : List Transaction) (m : Nat),
      (alookup (yoy_monthly_expenses txs) (pad2 m) = none
        ↔ ∀ t ∈ txs, ¬(t.amount < 0 ∧ t.date.month = m))
      ∧ ∀ v, alookup (yoy_monthly_expenses txs) (pad2 m) = some v →
          ∃ ys : List Nat, ys.Nodup
            ∧ (∀ y, y ∈ ys ↔ ∃ t ∈ txs,
                t.amount < 0 ∧ t.date.month = m ∧ t.date.year = y)
            ∧ v = ((expensesIn txs m).map (fun t => -t.amount)).sum
                / (ys.length : ℚ))
    ∧ alookup (yoy_monthly_expenses yoyTestTxs) (pad2 1) = some 1050
    ∧ alookup (yoy_monthly_expenses yoyTestTxs) (pad2 2) = some 900 := by
  have hyoy : ∀ (txs : List Transaction) (m : Nat),
      alookup (yoy_monthly_expenses txs) (pad2 m)
        = (alookup ((txs.filter (fun t => decide (t.amount < 0))).foldl
              (fun a t => updateAList a t.date.month (-t.amount)) []) m).map
            (fun s => s /
              ((((alookup ((txs.filter (fun t => decide (t.amount < 0))).foldl
                  (fun a t => addYear a t.date.month t.date.year) [])
                  m).getD []).length : ℚ))) := by
    intro txs m
    simp only [yoy_monthly_expenses]
    exact alookup_map_pad2 _
      (fun k v => v /
        ((((alookup ((txs.filter (fun t => decide (t.amount < 0))).foldl
            (fun a t => addYear a t.date.month t.date.year) [])
            k).getD []).length : ℚ))) m
  refine ⟨?_, ?_, ?_⟩
  · intro txs m
    constructor
    · rw [hyoy, Option.map_eq_none', sums_none_foldl]
      simp only [show alookup ([] : List (Nat × ℚ)) m = none from rfl,
        true_and]
      constructor
      · intro hall t ht hcon
        exact hall t (List.mem_filter.mpr ⟨ht, by simpa using hcon.1⟩) hcon.2
      · intro hall t htf hm
        have hmem := List.mem_filter.mp htf
        exact hall t hmem.1 ⟨by simpa using hmem.2, hm⟩
    · intro v hv
      rw [hyoy] at hv
      obtain ⟨s, hs, hfv⟩ := Option.map_eq_some'.mp hv
      refine ⟨(alookup ((txs.filter (fun t => decide (t.amount < 0))).foldl
          (fun a t => addYear a t.date.month t.date.year) []) m).getD [],
        ?_, ?_, ?_⟩
      · exact years_nodup_foldl _ [] m (by simp [alookup])
      · intro y
        rw [years_mem_foldl]
        simp only [show alookup ([] : List (Nat × List Nat)) m = none
            from rfl, Option.getD_none, List.not_mem_nil, false_or]
        constructor
        · rintro ⟨t, htf, hm, hy⟩
          have hmem := List.mem_filter.mp htf
          exact ⟨t, hmem.1, by simpa using hmem.2, hm, hy⟩
        · rintro ⟨t, ht, hneg, hm, hy⟩
          exact ⟨t, List.mem_filter.mpr ⟨ht, by simpa using hneg⟩, hm, hy⟩
      · have hgetd := sums_getD_foldl
          (txs.filter (fun t => decide (t.amount < 0))) [] m
        rw [hs] at hgetd
        simp only [Option.getD_some,
          show alookup ([] : List (Nat × ℚ)) m = none from rfl,
          Option.getD_none, zero_add, List.filter_filter] at hgetd
        rw [← hfv, hgetd]
        rfl
  · rw [hyoy]
    norm_num [alookup, updateAList, addYear, yoyTestTxs, List.filter]
  · rw [hyoy]
    norm_num [alookup, updateAList, addYear, yoyTestTxs, List.filter]

theorem summarize_bucketing_witness :
    alookup (by_month [⟨⟨2024, 1, 5⟩, "zero".data, 0⟩]) (2024, 1) ≠ none :=
  (summarize_bucketing [⟨⟨2024, 1, 5⟩, "zero".data, 0⟩] (2024, 1)).2.2.2.2.2.2
    ⟨⟨2024, 1, 5⟩, "zero".data, 0⟩ (by decide) (by decide)

theorem savings_rate_spec_witness :
    monthKey 2024 1 ∉
      (savings_rate [((2024, 1), ⟨0, 500⟩)]).map Prod.fst :=
  (savings_rate_spec [((2024, 1), ⟨0, 500⟩)]).2 (by decide)
    ((2024, 1), ⟨0, 500⟩) (by decide) (by decide)

theorem parse_amount_algorithm_witness :
    cleanedAmount " $1,234.50 ".data ≠ []
    ∧ ¬((cleanedAmount " $1,234.50 ".data).head? = some '('
        ∧ (cleanedAmount " $1,234.50 ".data).getLast? = some ')')
    ∧ _parse_amount " $1,234.50 ".data
        = parseDec (cleanedAmount " $1,234.50 ".data) :=
  ⟨by decide, by decide,
    ((parse_amount_algorithm " $1,234.50 ".data).2.2.1 (by decide)
      (by decide)).1⟩

theorem yoy_monthly_expenses_spec_witness :
    alookup (yoy_monthly_expenses yoyTestTxs) (pad2 3) = none :=
  (yoy_monthly_expenses_spec.1 yoyTestTxs 3).1.mpr (by decide)

end FHM
